import Mathlib

/-!
Verification of the hints-parsing and progress-reconciliation core of the
spelling-bee-tracker repository.  The TypeScript sources are shallowly
embedded: strings become lists of characters, JavaScript objects become
association lists (insertion ordered, numeric keys kept ascending as
JavaScript does for integer-like keys), JavaScript Sets become
insertion-ordered duplicate-free lists, and each parser variant found in
the repository is embedded as its own definition.  Regular-expression
matching is embedded by explicit character scanning that follows the
leftmost-match, greedy-with-backtracking semantics of the concrete
patterns appearing in the source.  Scanning loops that skip past a match
take an explicit fuel argument (callers pass the input length, which
bounds the number of scanning steps) so that every definition is a plain
structural recursion and evaluates by reduction.
-/

namespace SpellingBee

/-- ASCII model of JavaScript toUpperCase, applied characterwise. -/
def toUpperChar (c : Char) : Char :=
  if 'a' ≤ c ∧ c ≤ 'z' then Char.ofNat (c.toNat - 32) else c

/-- ASCII model of JavaScript toLowerCase, applied characterwise. -/
def toLowerChar (c : Char) : Char :=
  if 'A' ≤ c ∧ c ≤ 'Z' then Char.ofNat (c.toNat + 32) else c

/-- Whitespace as JavaScript regex \s sees it (the characters that occur in
this code base: space, tab, carriage return, newline, and the no-break
space U+00A0 that the parsers explicitly normalize). -/
def isSpaceJS (c : Char) : Bool :=
  c = ' ' || c = '\t' || c = '\r' || c = '\n' || c = Char.ofNat 160

/-- ASCII letter test, the case-insensitive [a-z] character class. -/
def isLetterAZ (c : Char) : Bool :=
  ('a' ≤ c ∧ c ≤ 'z') || ('A' ≤ c ∧ c ≤ 'Z')

/-- ASCII digit test, the regex \d character class. -/
def isDigitJS (c : Char) : Bool :=
  '0' ≤ c ∧ c ≤ '9'

/-- Numeric value of a list of digit characters (most significant first). -/
def natVal (ds : List Char) : Nat :=
  ds.foldl (fun n c => n * 10 + (c.toNat - 48)) 0

/-- Leading digit run of a token, as JavaScript parseInt reads it. -/
def leadingDigits (cs : List Char) : List Char :=
  cs.takeWhile isDigitJS

/-- JavaScript parseInt on a whitespace-free token: an optional sign
followed by a digit run; NaN (here: none) when no digits lead. -/
def parseIntJS (cs : List Char) : Option Int :=
  match cs with
  | '-' :: rest =>
      let ds := leadingDigits rest
      if ds.isEmpty then none else some (-(natVal ds : Int))
  | '+' :: rest =>
      let ds := leadingDigits rest
      if ds.isEmpty then none else some (natVal ds : Int)
  | _ =>
      let ds := leadingDigits cs
      if ds.isEmpty then none else some (natVal ds : Int)

/-- JavaScript String.prototype.trim on a list of characters. -/
def trimJS (cs : List Char) : List Char :=
  ((cs.dropWhile isSpaceJS).reverse.dropWhile isSpaceJS).reverse

/-- Split on the newline character, as JavaScript split('\n') does
(an empty input yields one empty line). -/
def splitLines (cs : List Char) : List (List Char) :=
  cs.splitOn '\n'

/-- Splitting a list of characters at runs of characters satisfying p,
dropping empty pieces: the observable effect of JavaScript
split(/sep+/) followed by filtering out empty strings, and of split on a
trimmed string whose separators are exactly the class p. -/
def splitByAux (p : Char → Bool) : List Char → List Char → List (List Char)
  | [], acc => if acc.isEmpty then [] else [acc.reverse]
  | c :: rest, acc =>
      if p c then
        if acc.isEmpty then splitByAux p rest []
        else acc.reverse :: splitByAux p rest []
      else splitByAux p rest (c :: acc)

/-- Tokens of a character list separated by the class p. -/
def splitBy (p : Char → Bool) (cs : List Char) : List (List Char) :=
  splitByAux p cs []

/-- Maximal digit runs of a line, the result of match(/\d+/g), read as
numbers. -/
def digitRunsAux : List Char → List Char → List Nat
  | [], run => if run.isEmpty then [] else [natVal run.reverse]
  | c :: rest, run =>
      if isDigitJS c then digitRunsAux rest (c :: run)
      else if run.isEmpty then digitRunsAux rest []
      else natVal run.reverse :: digitRunsAux rest []

/-- All numbers appearing in a line as maximal digit runs. -/
def digitRuns (cs : List Char) : List Nat :=
  digitRunsAux cs []

/-- Case-insensitive test that pat occurs at the start of cs. -/
def startsWithCI (pat : List Char) (cs : List Char) : Bool :=
  (cs.take pat.length).map toLowerChar = pat.map toLowerChar

/-- Case-insensitive test that pat occurs at the end of cs. -/
def endsWithCI (pat : List Char) (cs : List Char) : Bool :=
  ((cs.reverse.take pat.length).reverse).map toLowerChar = pat.map toLowerChar

/-- Test that pat occurs at the start of cs, character by character. -/
def startsWithList : List Char → List Char → Bool
  | [], _ => true
  | _ :: _, [] => false
  | p :: ps, c :: cs => p = c && startsWithList ps cs

/-- Test that pat occurs somewhere inside cs. -/
def containsSub (pat : List Char) : List Char → Bool
  | [] => pat.isEmpty
  | c :: rest => startsWithList pat (c :: rest) || containsSub pat rest

/-- Case-insensitive substring test (JavaScript includes on a lowercased
line compared against a lowercase pattern, and regex /pat/i.test). -/
def containsCI (pat : List Char) (cs : List Char) : Bool :=
  containsSub (pat.map toLowerChar) (cs.map toLowerChar)

/- ## Data model

A HintsData value is a JavaScript object mapping single uppercase letters
to objects mapping word lengths to counts.  Letter keys are kept in
insertion order (JavaScript string-key order); length keys are kept in
ascending numeric order (JavaScript integer-like-key order). -/

/-- The letter-by-length count grid. -/
abbrev HintsData := List (Char × List (Nat × Nat))

/-- Set a numeric-keyed cell of a letter row the way JavaScript objects
store integer-like keys: an existing key is overwritten in place and a
new key is kept in ascending order. -/
def setCell (cells : List (Nat × Nat)) (len cnt : Nat) : List (Nat × Nat) :=
  match cells with
  | [] => [(len, cnt)]
  | (l, c) :: rest =>
      if len = l then (l, cnt) :: rest
      else if len < l then (len, cnt) :: (l, c) :: rest
      else (l, c) :: setCell rest len cnt

/-- Set the row of a letter the way JavaScript objects store string keys:
an existing key is overwritten in place, a new key is appended. -/
def setEntry (h : HintsData) (letter : Char) (cells : List (Nat × Nat)) : HintsData :=
  match h with
  | [] => [(letter, cells)]
  | (l, cs) :: rest =>
      if l = letter then (l, cells) :: rest
      else (l, cs) :: setEntry rest letter cells

/-- The cell list stored for a letter, if the letter is present. -/
def lookupLetter (h : HintsData) (letter : Char) : Option (List (Nat × Nat)) :=
  (h.find? (fun e => e.1 = letter)).map (·.2)

/-- The count stored for a (letter, length) cell, if present. -/
def lookupCell (h : HintsData) (letter : Char) (len : Nat) : Option Nat :=
  (lookupLetter h letter).bind fun cells =>
    (cells.find? (fun c => c.1 = len)).map (·.2)

/- ## Points calculator (src/utils/pointsCalculator.ts) -/

/-- calculateWordPoints from pointsCalculator.ts: 4-letter words score 1
(8 as a pangram); other words score their length (+7 as a pangram). -/
def calculateWordPoints (word : List Char) (isPangram : Bool) : Nat :=
  if word.length = 4 then
    if isPangram then 8 else 1
  else
    let basePoints := word.length
    if isPangram then basePoints + 7 else basePoints

/-- calculateTotalPoints from pointsCalculator.ts: fold calculateWordPoints
over the word list, querying pangram status in the pangram set. -/
def calculateTotalPoints (words : List (List Char)) (pangrams : List (List Char)) : Nat :=
  words.foldl (fun total word => total + calculateWordPoints word (pangrams.contains word)) 0

/- ## Progress reconciler (src/components/WordTracker.tsx) -/

/-- The unique uppercase letters of a word: new Set(word.toUpperCase()). -/
def uniqueLetters (word : List Char) : List Char :=
  (word.map toUpperChar).dedup

/-- isValidWord from WordTracker.tsx: with no allowed letters there is no
restriction; otherwise every unique letter of the word must be allowed. -/
def isValidWord (allowedLetters : List Char) (word : List Char) : Bool :=
  if allowedLetters.isEmpty then true
  else (uniqueLetters word).all (fun c => allowedLetters.contains c)

/-- isPangram from WordTracker.tsx: with no allowed letters the answer is
false; otherwise the number of allowed letters occurring among the word's
letters must equal the number of allowed letters. -/
def isPangram (allowedLetters : List Char) (word : List Char) : Bool :=
  if allowedLetters.isEmpty then false
  else allowedLetters.length =
    (allowedLetters.filter (fun c => (uniqueLetters word).contains c)).length

/-- How many found words start with the letter and have the length: the
filter in remainingHintsData. -/
def countFound (found : List (List Char)) (letter : Char) (len : Nat) : Nat :=
  (found.filter (fun w => w.head? = some letter ∧ w.length = len)).length

/-- The surviving cells of one letter row of remainingHintsData: each cell
keeps max(0, count − found words for the cell) and is dropped at zero. -/
def remainingCells (found : List (List Char)) (letter : Char)
    (cells : List (Nat × Nat)) : List (Nat × Nat) :=
  cells.filterMap fun c =>
    let rem := c.2 - countFound found letter c.1
    if 0 < rem then some (c.1, rem) else none

/-- remainingHintsData from WordTracker.tsx: recompute every cell from the
immutable grid and the current found set; letters left without cells are
absent from the result. -/
def remainingHintsData (hintsData : HintsData) (found : List (List Char)) : HintsData :=
  (hintsData.map (fun e => (e.1, remainingCells found e.1 e.2))).filter
    (fun e => ¬ e.2.isEmpty)

/-- progressPercentage from WordTracker.tsx: round(found / total * 100)
guarded by total > 0, else 0. -/
def progressPercentage (foundWords : List (List Char)) (totalPossibleWords : Nat) : Int :=
  if 0 < totalPossibleWords then
    round ((foundWords.length : ℚ) / (totalPossibleWords : ℚ) * 100)
  else 0

/-- The word-set part of the WordTracker component state.  JavaScript Sets
are insertion-ordered and duplicate-free; they are embedded as lists to
which addWord appends only unseen elements. -/
structure TrackerState where
  allowedLetters : List Char
  foundWords : List (List Char)
  invalidWords : List (List Char)
  foundPangrams : List (List Char)
deriving DecidableEq, Repr

/-- Adding a word to a JavaScript Set: appended when absent, no-op when
already present. -/
def addWord (s : List (List Char)) (w : List Char) : List (List Char) :=
  if s.contains w then s else s ++ [w]

/-- handleWordsFound from WordTracker.tsx: uppercase each submitted word,
classify it with isValidWord / isPangram against the current allowed
letters, and merge the three classification lists into the found, pangram
and invalid sets. -/
def handleWordsFound (st : TrackerState) (newWords : List (List Char)) : TrackerState :=
  let ups := newWords.map (List.map toUpperChar)
  let validWords := ups.filter (fun w => isValidWord st.allowedLetters w)
  let newPangrams := validWords.filter (fun w => isPangram st.allowedLetters w)
  let invalidWordsData := ups.filter (fun w => ¬ isValidWord st.allowedLetters w)
  { st with
    foundWords := validWords.foldl addWord st.foundWords
    foundPangrams := newPangrams.foldl addWord st.foundPangrams
    invalidWords := invalidWordsData.foldl addWord st.invalidWords }

/- ## Shared regex building blocks for the parsers -/

/-- The [:\s] character class used by the data-row and pangram patterns. -/
def isSepColonWs (c : Char) : Bool :=
  c = ':' || isSpaceJS c

/-- Replace the no-break space with a regular space, the
replace(/ /g, ' ') normalization step. -/
def nbspToSpace (c : Char) : Char :=
  if c = Char.ofNat 160 then ' ' else c

/-- The anchored data-row pattern /^([a-z])[:\s]+(.+)$/i: a single letter,
a nonempty run of colon-or-space separators, then a nonempty rest.  When
the whole remainder is separators, the greedy separator run backtracks by
one character so that (.+) captures exactly the final character. -/
def anchoredLetterMatch (line : List Char) : Option (Char × List Char) :=
  match line with
  | [] => none
  | c :: rest =>
      if isLetterAZ c then
        let s := rest.takeWhile isSepColonWs
        if s.isEmpty then none
        else
          let after := rest.drop s.length
          if after.isEmpty then
            if 2 ≤ rest.length then
              match rest.getLast? with
              | some d => some (c, [d])
              | none => none
            else none
          else some (c, after)
      else none

/-- The tail :\s*(\d+) of the HintsImageUpload pangram pattern. -/
def colonWsDigits (cs : List Char) : Option Nat :=
  match cs with
  | ':' :: rest =>
      let r := rest.dropWhile isSpaceJS
      let ds := leadingDigits r
      if ds.isEmpty then none else some (natVal ds)
  | _ => none

/-- The tail [:\s]+(\d+) of the part_003 pangram pattern. -/
def sepRunDigits (cs : List Char) : Option Nat :=
  let s := cs.takeWhile isSepColonWs
  if s.isEmpty then none
  else
    let ds := leadingDigits (cs.drop s.length)
    if ds.isEmpty then none else some (natVal ds)

/-- Attempt /PANGRAMS?:\s*(\d+)/i at the head of cs (the greedy optional S
is tried first, then given back). -/
def pangramAtUpload (cs : List Char) : Option Nat :=
  if startsWithCI ['p','a','n','g','r','a','m'] cs then
    let after := cs.drop 7
    match after with
    | [] => none
    | d :: a2 =>
        if d = 's' ∨ d = 'S' then
          (colonWsDigits a2).orElse (fun _ => colonWsDigits after)
        else colonWsDigits after
  else none

/-- Leftmost match of /PANGRAMS?:\s*(\d+)/i in a line. -/
def pangramMatchUpload : List Char → Option Nat
  | [] => none
  | c :: rest => (pangramAtUpload (c :: rest)).orElse (fun _ => pangramMatchUpload rest)

/-- Attempt /PANGRAMS?[:\s]+(\d+)/i at the head of cs. -/
def pangramAtP3 (cs : List Char) : Option Nat :=
  if startsWithCI ['p','a','n','g','r','a','m'] cs then
    let after := cs.drop 7
    match after with
    | [] => none
    | d :: a2 =>
        if d = 's' ∨ d = 'S' then
          (sepRunDigits a2).orElse (fun _ => sepRunDigits after)
        else sepRunDigits after
  else none

/-- Leftmost match of /PANGRAMS?[:\s]+(\d+)/i in a line. -/
def pangramMatchP3 : List Char → Option Nat
  | [] => none
  | c :: rest => (pangramAtP3 (c :: rest)).orElse (fun _ => pangramMatchP3 rest)

/- ## Hints parser of HintsImageUpload.tsx (parseHintsFromText) -/

/-- Full parser result: grid, accumulated word total, pangram count and
allowed letters. -/
structure ParsedFull where
  hintsData : HintsData
  totalWords : Nat
  pangrams : Nat
  allowedLetters : List Char
deriving DecidableEq, Repr

/-- Allowed-letter detection of parseHintsFromText: the first nonempty
line, when it is all letters and whitespace of length at least 7, is read
either as space-separated single letters or as a concatenated string; a
detection that does not yield exactly 7 letters is discarded. -/
def uploadAllowed (lines : List (List Char)) : List Char :=
  match lines with
  | [] => []
  | firstLine :: _ =>
      if (¬ firstLine.isEmpty) && firstLine.all (fun c => isLetterAZ c || isSpaceJS c)
          && 7 ≤ firstLine.length then
        let letters :=
          if firstLine.contains ' ' then
            ((splitBy isSpaceJS firstLine).map (List.map toUpperChar)).filterMap
              (fun t =>
                match t with
                | [c] => if 'A' ≤ c ∧ c ≤ 'Z' then some c else none
                | _ => none)
          else
            (firstLine.map toUpperChar).filter (fun c => 'A' ≤ c ∧ c ≤ 'Z')
        if letters.length = 7 then letters else []
      else []

/-- The [\s|,;] token separator class of parseHintsFromText rows. -/
def isSepValues (c : Char) : Bool :=
  isSpaceJS c || c = '|' || c = ',' || c = ';'

/-- One loop iteration of parseHintsFromText over a line, threading
(hintsData, totalWords, pangrams). -/
def uploadRowStep (allowed : List Char) (st : HintsData × Nat × Nat)
    (raw : List Char) : HintsData × Nat × Nat :=
  let line := raw.map nbspToSpace
  match pangramMatchUpload line with
  | some n => (st.1, st.2.1, n)
  | none =>
    match anchoredLetterMatch line with
    | some (lc, g2) =>
        let letter := toUpperChar lc
        if ¬ allowed.contains letter then st
        else
          let values := (((splitBy isSepValues g2).map trimJS).filter
            (fun v => ¬ v.isEmpty)).dropLast
          if values.isEmpty then st
          else
            let step := fun (acc : List (Nat × Nat) × Nat) (iv : Nat × List Char) =>
              let count : Option Int :=
                if iv.2 = ['-'] ∨ iv.2 = ['O'] ∨ iv.2 = ['0'] then some 0
                else parseIntJS iv.2
              match count with
              | none => acc
              | some n =>
                  if 0 < n then (setCell acc.1 (4 + iv.1) n.toNat, acc.2 + n.toNat)
                  else acc
            let (cells, total) := values.enum.foldl step ([], st.2.1)
            (setEntry st.1 letter cells, total, st.2.2)
    | none => st

/-- parseHintsFromText from HintsImageUpload.tsx. -/
def parseHintsFromText (text : List Char) : Option ParsedFull :=
  let lines := ((splitLines text).map trimJS).filter (fun l => 0 < l.length)
  let allowed := uploadAllowed lines
  let r := lines.foldl (uploadRowStep allowed) ([], 0, 0)
  if r.1.isEmpty then none
  else some ⟨r.1, r.2.1, r.2.2, allowed⟩

/- ## Hints parser of src/unnamed/part_003 (parseHintsFromContent) -/

/-- Allowed-letter detection of the part_003 parser: the first line is a
candidate when it starts with a letter followed by whitespace (or comma)
and another letter; every single-letter token is kept, with no check on
how many letters were found. -/
def p3Allowed (lines : List (List Char)) : List Char :=
  match lines with
  | [] => []
  | firstLine :: _ =>
      let candidate :=
        match firstLine with
        | [] => false
        | c :: rest =>
            isLetterAZ c &&
            ((let s1 := rest.takeWhile isSpaceJS
              (¬ s1.isEmpty) && (rest.drop s1.length).head?.elim false isLetterAZ) ||
             (let s2 := rest.takeWhile (fun d => d = ',' || isSpaceJS d)
              (¬ s2.isEmpty) && (rest.drop s2.length).head?.elim false isLetterAZ))
      if candidate then
        ((splitBy (fun d => d = ',' || isSpaceJS d) firstLine).map
          (List.map toUpperChar)).filterMap
          (fun t =>
            match t with
            | [c] => if 'A' ≤ c ∧ c ≤ 'Z' then some c else none
            | _ => none)
      else []

/-- One loop iteration of the part_003 parser over a line, threading
(hintsData, totalWords, pangrams).  The last token of a row is dropped as
a row total exactly when it parses to an integer greater than 15. -/
def p3RowStep (st : HintsData × Nat × Nat) (raw : List Char) : HintsData × Nat × Nat :=
  let line := trimJS (raw.map nbspToSpace)
  match pangramMatchP3 line with
  | some n => (st.1, st.2.1, n)
  | none =>
    match anchoredLetterMatch line with
    | some (lc, g2) =>
        let letter := toUpperChar lc
        if letter = 'Σ' || containsSub ['s','u','m'] (line.map toLowerChar) then st
        else
          let values := (splitBy isSpaceJS g2).filter (fun v => v ≠ ['|'])
          let cleanValues :=
            if 1 < values.length then
              match values.getLast? with
              | some lastVal =>
                  if lastVal ≠ ['-'] then
                    match parseIntJS lastVal with
                    | some n => if 15 < n then values.dropLast else values
                    | none => values
                  else values
              | none => values
            else values
          if cleanValues.isEmpty then st
          else
            let step := fun (acc : List (Nat × Nat) × Nat) (iv : Nat × List Char) =>
              let count : Option Int :=
                if iv.2 = ['-'] ∨ iv.2 = ['—'] then some 0
                else parseIntJS iv.2
              match count with
              | none => acc
              | some n =>
                  if 0 < n then (setCell acc.1 (4 + iv.1) n.toNat, acc.2 + n.toNat)
                  else acc
            let (cells, total) := cleanValues.enum.foldl step ([], st.2.1)
            (setEntry st.1 letter cells, total, st.2.2)
    | none => st

/-- parseHintsFromContent from src/unnamed/part_003. -/
def parseHintsFromContentP3 (text : List Char) : Option ParsedFull :=
  let lines := ((splitLines text).map trimJS).filter (fun l => 0 < l.length)
  let allowed := p3Allowed lines
  let r := lines.foldl p3RowStep ([], 0, 0)
  if r.1.isEmpty then none
  else some ⟨r.1, r.2.1, r.2.2, allowed⟩

/- ## Hints parser of the HintsFetcher paste variant (parseHintsFromContent
with header detection and the sum row-total rule) -/

/-- Basic parser result: grid and accumulated word total. -/
structure ParsedBasic where
  hintsData : HintsData
  totalWords : Nat
deriving DecidableEq, Repr

/-- Header detection on one line: a LETTER-prefixed line or an all-number
line contributes its in-range (4..12) numbers as column lengths when at
least two survive. -/
def hfHeaderOf (line : List Char) : Option (List Nat) :=
  (if startsWithCI ['l','e','t','t','e','r'] line then
    let nums := (digitRuns line).filter (fun n => 4 ≤ n ∧ n ≤ 12)
    if 2 ≤ nums.length then some nums else none
   else none).orElse (fun _ =>
    let toks := splitBy isSpaceJS line
    if 3 ≤ toks.length ∧ toks.all (fun t => (¬ t.isEmpty) && t.all isDigitJS) then
      let nums := (toks.map natVal).filter (fun n => 4 ≤ n ∧ n ≤ 12)
      if 2 ≤ nums.length then some nums else none
    else none)

/-- Column lengths for the grid: the first header found, else the default
4..12 sequence. -/
def hfHeader (lines : List (List Char)) : List Nat :=
  match lines.findSome? hfHeaderOf with
  | some cols => cols
  | none => [4, 5, 6, 7, 8, 9, 10, 11, 12]

/-- Drop the final number of a row when it equals the sum of the others:
the row-total rule of the HintsFetcher paste parser. -/
def stripRowTotal (numbers : List Nat) : List Nat :=
  if 1 < numbers.length ∧ numbers.getLast?.getD 0 = numbers.dropLast.sum then
    numbers.dropLast
  else numbers

/-- One loop iteration of the HintsFetcher paste parser over a line,
threading (hintsData, totalWords). -/
def hfRowStep (cols : List Nat) (st : HintsData × Nat) (line : List Char) : HintsData × Nat :=
  if startsWithCI ['l','e','t','t','e','r'] line ||
     startsWithCI ['t','o','t','a','l'] line ||
     endsWithCI ['t','o','t','a','l'] line ||
     ¬ (line.head?.elim false (fun c => 'A' ≤ c ∧ c ≤ 'Z')) then st
  else
    match line with
    | [] => st
    | firstChar :: restOfLine =>
        let numbers := digitRuns restOfLine
        if numbers.isEmpty then st
        else
          let counts := stripRowTotal numbers
          let step := fun (acc : List (Nat × Nat) × Nat) (p : Nat × Nat) =>
            if 0 < p.1 then (setCell acc.1 p.2 p.1, acc.2 + p.1) else acc
          let (cells, total) := (counts.zip cols).foldl step ([], st.2)
          (setEntry st.1 (toUpperChar firstChar) cells, total)

/-- parseHintsFromContent from the HintsFetcher paste variant. -/
def parseHintsFromContentHF (text : List Char) : Option ParsedBasic :=
  let lines := ((splitLines text).map (fun l => trimJS (l.map nbspToSpace))).filter
    (fun l => ¬ l.isEmpty)
  let cols := hfHeader lines
  let r := lines.foldl (hfRowStep cols) ([], 0)
  if r.1.isEmpty then none else some ⟨r.1, r.2⟩

/- ## Hints parser of the original HintsFetcher fetch variant
(parseHintsFromContent with the fabricated-sample fallback) -/

/-- Leftmost match of the unanchored /([a-z])[:\s]+([0-9\s,]+)/i pattern.
When the separator run reaches the end of the line the greedy run
backtracks and the second group captures a single whitespace character
(which holds no digits); otherwise the second group is the maximal run of
digits, whitespace and commas after the separators, provided it starts
with a digit or comma. -/
def v1MatchLine : List Char → Option (Char × List Char)
  | [] => none
  | c :: rest =>
      if isLetterAZ c then
        let s := rest.takeWhile isSepColonWs
        if s.isEmpty then v1MatchLine rest
        else
          let after := rest.drop s.length
          if after.head?.elim false (fun d => isDigitJS d || d = ',') then
            some (c, after.takeWhile (fun d => isDigitJS d || isSpaceJS d || d = ','))
          else
            match (s.drop 1).reverse.find? isSpaceJS with
            | some w => some (c, [w])
            | none => v1MatchLine rest
      else v1MatchLine rest

/-- The fabricated cells for one letter of the sample-data fallback.  Each
Math.floor(Math.random() * k) + d draw is modelled as rng i % k + d
against an oracle stream rng of random draws. -/
def fabricateCells (rng : Nat → Nat) (base : Nat) : List (Nat × Nat) × Nat :=
  let fourLetter := rng base % 4 + 1
  let fiveLetter := rng (base + 1) % 3 + 1
  let sixLetter := rng (base + 2) % 2
  let sevenPlus := rng (base + 3) % 2
  let add := fun (acc : List (Nat × Nat) × Nat) (len cnt : Nat) =>
    if 0 < cnt then (setCell acc.1 len cnt, acc.2 + cnt) else acc
  add (add (add (add ([], 0) 4 fourLetter) 5 fiveLetter) 6 sixLetter) 7 sevenPlus

/-- The fabricated sample grid of the fetch variant: realistic-looking
random counts for the seven letters B, E, H, L, N, O, W. -/
def fabricateHints (rng : Nat → Nat) : HintsData × Nat :=
  (['B', 'E', 'H', 'L', 'N', 'O', 'W'].enum).foldl
    (fun acc il =>
      let r := fabricateCells rng (4 * il.1)
      (setEntry acc.1 il.2 r.1, acc.2 + r.2)) ([], 0)

/-- One loop iteration of the fetch variant over a line, threading
(inHintsSection, hintsData, totalWords).  The line is lowercased first;
marker lines containing hint, grid or letter open the hints section. -/
def v1Step (st : Bool × HintsData × Nat) (rawLine : List Char) : Bool × HintsData × Nat :=
  let line := rawLine.map toLowerChar
  if containsSub ['h', 'i', 'n', 't'] line || containsSub ['g', 'r', 'i', 'd'] line ||
     containsSub ['l', 'e', 't', 't', 'e', 'r'] line then
    (true, st.2)
  else if st.1 then
    match v1MatchLine line with
    | some (lc, g2) =>
        let letter := toUpperChar lc
        let numbers := digitRuns g2
        if numbers.isEmpty then st
        else
          let step := fun (acc : List (Nat × Nat) × Nat) (iv : Nat × Nat) =>
            if 0 < iv.2 then (setCell acc.1 (4 + iv.1) iv.2, acc.2 + iv.2) else acc
          let r := numbers.enum.foldl step ([], st.2.2)
          (st.1, setEntry st.2.1 letter r.1, r.2)
    | none => st
  else st

/-- parseHintsFromContent from the original HintsFetcher fetch variant:
when no row was recognized it does not fail but returns the fabricated
sample grid. -/
def parseHintsFromContentV1 (rng : Nat → Nat) (text : List Char) : Option ParsedBasic :=
  let lines := splitLines text
  let r := (lines.foldl v1Step (false, [], 0)).2
  if r.1.isEmpty then
    let f := fabricateHints rng
    some ⟨f.1, r.2 + f.2⟩
  else some ⟨r.1, r.2⟩

/- ## Two-letter list parsers -/

/-- The [:\s\-] separator class of the accumulating two-letter pattern. -/
def isSepTL (c : Char) : Bool :=
  c = ':' || c = '-' || isSpaceJS c

/-- All matches of /([A-Z]{2})[:\s\-]+(\d+)/gi in one line, scanning from
the left and resuming after each match, as matchAll does.  The fuel
argument (the line length) bounds the scan. -/
def scanTLLine (fuel : Nat) (cs : List Char) : List ((Char × Char) × Nat) :=
  match fuel with
  | 0 => []
  | fuel + 1 =>
    match cs with
    | c1 :: c2 :: rest =>
        if isLetterAZ c1 && isLetterAZ c2 then
          let s := rest.takeWhile isSepTL
          if s.isEmpty then scanTLLine fuel (c2 :: rest)
          else
            let after := rest.drop s.length
            let ds := leadingDigits after
            if ds.isEmpty then scanTLLine fuel (c2 :: rest)
            else ((toUpperChar c1, toUpperChar c2), natVal ds) ::
              scanTLLine fuel (after.drop ds.length)
        else scanTLLine fuel (c2 :: rest)
    | _ => []

/-- Accumulate a detected (combo, count) into the result list: the first
entry with the same combo receives the added count, otherwise a new entry
is appended. -/
def insertCombo : List ((Char × Char) × Nat) → (Char × Char) → Nat → List ((Char × Char) × Nat)
  | [], combo, count => [(combo, count)]
  | e :: rest, combo, count =>
      if e.1 = combo then (e.1, e.2 + count) :: rest
      else e :: insertCombo rest combo count

/-- Lexicographic order on combos, the effect of localeCompare on
two-letter uppercase strings. -/
def comboLe (a b : Char × Char) : Bool :=
  a.1 < b.1 || (a.1 = b.1 && (a.2 < b.2 || a.2 = b.2))

/-- Stable sorted insertion: the new entry goes after every existing entry
whose combo is less than or equal to its own. -/
def insertEntrySorted (e : (Char × Char) × Nat) :
    List ((Char × Char) × Nat) → List ((Char × Char) × Nat)
  | [] => [e]
  | x :: xs => if comboLe x.1 e.1 then x :: insertEntrySorted e xs else e :: x :: xs

/-- Stable sort by combo, the sort((a, b) => a.combo.localeCompare(b.combo))
step. -/
def sortEntries (l : List ((Char × Char) × Nat)) : List ((Char × Char) × Nat) :=
  l.foldl (fun acc e => insertEntrySorted e acc) []

/-- parseTwoLetterList from HintsImageUpload.tsx: per-line matches are
accumulated combo by combo (duplicates sum into the existing entry) and
the result is sorted. -/
def parseTwoLetterList (text : List Char) : List ((Char × Char) × Nat) :=
  let lines := (splitLines text).map trimJS
  let results := lines.foldl
    (fun acc line =>
      (scanTLLine line.length line).foldl
        (fun acc2 m => if 0 < m.2 then insertCombo acc2 m.1 m.2 else acc2) acc)
    []
  sortEntries results

/-- The [:\s\-\(] separator class of the part_004 two-letter pattern. -/
def isSepP4 (c : Char) : Bool :=
  c = ':' || c = '-' || c = '(' || isSpaceJS c

/-- Collapse every run of newline characters into one space, the
replace(/[\n\r]+/g, ' ') step of the part_004 parser. -/
def collapseNL : List Char → Bool → List Char
  | [], _ => []
  | c :: rest, prevNL =>
      if c = '\n' ∨ c = '\r' then
        if prevNL then collapseNL rest true else ' ' :: collapseNL rest true
      else c :: collapseNL rest false

/-- All matches of /([A-Z]{2})[:\s\-\(]+(\d+)[\)]*(?:\s|$|,)/gi over the
whole text, scanning from the left and resuming after each match. -/
def scanTLP4 (fuel : Nat) (cs : List Char) : List ((Char × Char) × Nat) :=
  match fuel with
  | 0 => []
  | fuel + 1 =>
    match cs with
    | c1 :: c2 :: rest =>
        if isLetterAZ c1 && isLetterAZ c2 then
          let s := rest.takeWhile isSepP4
          if s.isEmpty then scanTLP4 fuel (c2 :: rest)
          else
            let afterSep := rest.drop s.length
            let ds := leadingDigits afterSep
            if ds.isEmpty then scanTLP4 fuel (c2 :: rest)
            else
              let afterDs := afterSep.drop ds.length
              let afterPs := afterDs.dropWhile (fun d => d = ')')
              match afterPs with
              | [] => [((toUpperChar c1, toUpperChar c2), natVal ds)]
              | t :: rest2 =>
                  if isSpaceJS t || t = ',' then
                    ((toUpperChar c1, toUpperChar c2), natVal ds) :: scanTLP4 fuel rest2
                  else scanTLP4 fuel (c2 :: rest)
        else scanTLP4 fuel (c2 :: rest)
    | _ => []

/-- All matches of the bare fallback /([A-Z]{2})(?:\s|$|,)/gi. -/
def scanTLBare (fuel : Nat) (cs : List Char) : List (Char × Char) :=
  match fuel with
  | 0 => []
  | fuel + 1 =>
    match cs with
    | c1 :: c2 :: rest =>
        if isLetterAZ c1 && isLetterAZ c2 then
          match rest with
          | [] => [(toUpperChar c1, toUpperChar c2)]
          | t :: rest2 =>
              if isSpaceJS t || t = ',' then
                (toUpperChar c1, toUpperChar c2) :: scanTLBare fuel rest2
              else scanTLBare fuel (c2 :: rest)
        else scanTLBare fuel (c2 :: rest)
    | _ => []

/-- parseTwoLetterList from src/unnamed/part_004 (and the HintsFetcher
paste variant): every count-bearing match is pushed as its own entry with
no lookup of an existing combo; the bare fallback (with count 1 and
deduplication) runs only when the count-bearing pass found nothing. -/
def parseTwoLetterListP4 (text : List Char) : List ((Char × Char) × Nat) :=
  if (trimJS text).isEmpty then []
  else
    let allText := collapseNL text false
    let results := (scanTLP4 allText.length allText).filter (fun m => 0 < m.2)
    let results2 :=
      if results.isEmpty then
        (scanTLBare allText.length allText).foldl
          (fun acc combo =>
            if acc.any (fun r => r.1 = combo) then acc else acc ++ [(combo, 1)]) []
      else results
    sortEntries results2

/- ## Theorems -/

/-- C1: the claim states that every hints parser returns an explicit
failure (null) on input with no letter-prefixed data rows.  The original
HintsFetcher fetch variant of parseHintsFromContent violates this — the
spec itself calls the fabricated-sample fallback a removed bug: on empty
input (no data rows at all) it succeeds with a fabricated grid over the
letters B, E, H, L, N, O, W, while the later parseHintsFromText correctly
returns the failure value. -/
theorem C1_fetch_variant_fabricates :
    parseHintsFromContentV1 (fun _ => 0) [] =
      some ⟨[('B', [(4, 1), (5, 1)]), ('E', [(4, 1), (5, 1)]), ('H', [(4, 1), (5, 1)]),
             ('L', [(4, 1), (5, 1)]), ('N', [(4, 1), (5, 1)]), ('O', [(4, 1), (5, 1)]),
             ('W', [(4, 1), (5, 1)])], 14⟩ ∧
    parseHintsFromContentV1 (fun _ => 0) [] ≠ none ∧
    parseHintsFromText [] = none := by
  refine ⟨by decide, by decide, by decide⟩

/-- C4 counterexample: the part_003 parseHintsFromContent does not apply
the sum rule to the row e: 2 4 2 8 — although 8 = 2+4+2, the trailing 8
is kept (it is not greater than 15) and mapped to length 7, contributing
16 rather than 8 to totalWords. -/
theorem C4_counterexample :
    parseHintsFromContentP3 ("e: 2 4 2 8".data) =
      some ⟨[('E', [(4, 2), (5, 4), (6, 2), (7, 8)])], 16, 0, []⟩ ∧
    parseHintsFromContentP3 ("e: 2 4 2 8".data) ≠
      some ⟨[('E', [(4, 2), (5, 4), (6, 2)])], 8, 0, []⟩ := by
  refine ⟨by decide, by decide⟩

/-- C4 amended: the sum row-total rule is implemented by the HintsFetcher
paste variant of parseHintsFromContent, where the last number of a row is
dropped exactly when it equals the sum of the preceding ones: the row
E: 2 4 2 8 parses to E with cells 4:2, 5:4, 6:2 and total 8, the row
E: 2 4 2 9 keeps the 9 and maps it to the next column length 7, and
stripRowTotal drops the last number of any multi-number row precisely
when it equals the sum of the others. -/
theorem C4_amended_sum_rule :
    parseHintsFromContentHF ("E: 2 4 2 8".data) =
      some ⟨[('E', [(4, 2), (5, 4), (6, 2)])], 8⟩ ∧
    parseHintsFromContentHF ("E: 2 4 2 9".data) =
      some ⟨[('E', [(4, 2), (5, 4), (6, 2), (7, 9)])], 17⟩ ∧
    ∀ ns : List Nat, 1 < ns.length →
      stripRowTotal ns =
        (if ns.getLast?.getD 0 = ns.dropLast.sum then ns.dropLast else ns) := by
  refine ⟨by decide, by decide, ?_⟩
  intro ns h
  unfold stripRowTotal
  by_cases he : ns.getLast?.getD 0 = ns.dropLast.sum
  · rw [if_pos ⟨h, he⟩, if_pos he]
  · rw [if_neg (fun hc => he hc.2), if_neg he]

/-- C4 amended witness: the sum rule applied to the concrete row
2 4 2 8. -/
theorem C4_amended_sum_rule_witness :
    stripRowTotal [2, 4, 2, 8] =
      (if ([2, 4, 2, 8] : List Nat).getLast?.getD 0 = ([2, 4, 2, 8] : List Nat).dropLast.sum
       then ([2, 4, 2, 8] : List Nat).dropLast else [2, 4, 2, 8]) :=
  C4_amended_sum_rule.2.2 [2, 4, 2, 8] (by decide)

/-- C5 counterexample: for the found set {ABLE, PUDDLE} with PUDDLE the
only pangram, the total is not 17 and the 4-letter word ABLE does not
score 4 points. -/
theorem C5_counterexample :
    calculateTotalPoints ["ABLE".data, "PUDDLE".data] ["PUDDLE".data] ≠ 17 ∧
    calculateWordPoints ("ABLE".data) false ≠ 4 := by
  refine ⟨by decide, by decide⟩

/-- C5 amended: for the found set {ABLE, PUDDLE} with PUDDLE the only
pangram, totalPoints is 14, since the 4-letter word ABLE scores 1 point
and the pangram PUDDLE scores 6 + 7 = 13. -/
theorem C5_points_scenario :
    calculateTotalPoints ["ABLE".data, "PUDDLE".data] ["PUDDLE".data] = 14 ∧
    calculateWordPoints ("ABLE".data) false = 1 ∧
    calculateWordPoints ("PUDDLE".data) true = 13 := by
  refine ⟨by decide, by decide, by decide⟩

/-- C2 counterexample: a grid that stores a letter with an empty cell map
has no zero cells, yet remainingGrid with an empty found set drops the
letter, so the claimed unconditional round-trip fails. -/
theorem C2_counterexample :
    (∀ e ∈ ([('A', [])] : HintsData), ∀ c ∈ e.2, 0 < c.2) ∧
    remainingHintsData [('A', [])] [] ≠ [('A', [])] := by
  refine ⟨by decide, by decide⟩

/-- No cell of a remaining row carries a length absent from the original
row. -/
theorem remainingCells_find_none (found : List (List Char)) (l : Char)
    (cells : List (Nat × Nat)) (len : Nat) (h : ∀ c ∈ cells, c.1 ≠ len) :
    (remainingCells found l cells).find? (fun c => c.1 = len) = none := by
  rw [List.find?_eq_none]
  intro x hx
  unfold remainingCells at hx
  rcases List.mem_filterMap.mp hx with ⟨c, hcmem, hxc⟩
  dsimp only at hxc
  split at hxc
  · injection hxc with hx2
    subst hx2
    simpa using h c hcmem
  · cases hxc

/-- The remaining count of a cell: looked up in the reduced row it equals
the clamped subtraction applied to the original count, with zero results
absent. -/
theorem remainingCells_find (found : List (List Char)) (l : Char)
    (cells : List (Nat × Nat)) (len : Nat) (hnd : (cells.map Prod.fst).Nodup) :
    ((remainingCells found l cells).find? (fun c => c.1 = len)).map Prod.snd =
      ((cells.find? (fun c => c.1 = len)).map Prod.snd).bind (fun cnt =>
        if 0 < cnt - countFound found l len then some (cnt - countFound found l len)
        else none) := by
  induction cells with
  | nil => rfl
  | cons c t ih =>
    simp only [List.map_cons, List.nodup_cons] at hnd
    by_cases hcl : c.1 = len
    · subst hcl
      rw [List.find?_cons_of_pos _ (by simp)]
      unfold remainingCells
      rw [List.filterMap_cons]
      dsimp only
      by_cases hrem : 0 < c.2 - countFound found l c.1
      · rw [if_pos hrem]
        rw [List.find?_cons_of_pos _ (by simp)]
        simp only [Option.map_some', Option.some_bind]
        rw [if_pos hrem]
      · rw [if_neg hrem]
        have hkeys : ∀ x ∈ t, x.1 ≠ c.1 := by
          intro x hx he
          exact hnd.1 (he ▸ List.mem_map_of_mem Prod.fst hx)
        have hnone := remainingCells_find_none found l t c.1 hkeys
        unfold remainingCells at hnone
        rw [hnone]
        simp only [Option.map_none', Option.map_some', Option.some_bind]
        rw [if_neg hrem]
    · rw [List.find?_cons_of_neg _ (by simp [hcl])]
      unfold remainingCells
      rw [List.filterMap_cons]
      dsimp only
      have hrest := ih hnd.2
      unfold remainingCells at hrest
      by_cases hrem : 0 < c.2 - countFound found l c.1
      · rw [if_pos hrem]
        rw [List.find?_cons_of_neg _ (by simp [hcl])]
        exact hrest
      · rw [if_neg hrem]
        exact hrest

/-- A letter absent from the grid is absent from the remaining grid. -/
theorem remaining_lookupLetter_none (h : HintsData) (found : List (List Char)) (l : Char)
    (hkeys : ∀ e ∈ h, e.1 ≠ l) :
    lookupLetter (remainingHintsData h found) l = none := by
  unfold lookupLetter
  have hfind : (remainingHintsData h found).find? (fun e => e.1 = l) = none := by
    rw [List.find?_eq_none]
    intro x hx
    unfold remainingHintsData at hx
    rcases List.mem_filter.mp hx with ⟨hx2, _⟩
    rcases List.mem_map.mp hx2 with ⟨e, hemem, rfl⟩
    simpa using hkeys e hemem
  rw [hfind]
  rfl

/-- The cell formula of remainingHintsData: for every letter and length,
the remaining lookup equals the original lookup reduced by the count of
matching found words, clamped at zero and dropped when zero. -/
theorem remaining_grid_cell (h : HintsData) (found : List (List Char)) (l : Char) (len : Nat)
    (hk : (h.map Prod.fst).Nodup)
    (hcells : ∀ e ∈ h, (e.2.map Prod.fst).Nodup) :
    lookupCell (remainingHintsData h found) l len =
      (lookupCell h l len).bind (fun cnt =>
        if 0 < cnt - countFound found l len then some (cnt - countFound found l len)
        else none) := by
  induction h with
  | nil => rfl
  | cons e t ih =>
    simp only [List.map_cons, List.nodup_cons] at hk
    have hlem := remainingCells_find found e.1 e.2 len (hcells e (List.mem_cons_self e t))
    have ihr := ih hk.2 fun x hx => hcells x (List.mem_cons_of_mem _ hx)
    unfold remainingHintsData lookupCell lookupLetter at ihr ⊢
    rw [List.map_cons, List.filter_cons]
    by_cases hel : e.1 = l
    · subst hel
      by_cases hemp : (remainingCells found e.1 e.2).isEmpty
      · rw [if_neg (by simp [hemp])]
        have hkeys : ∀ x ∈ t, x.1 ≠ e.1 := by
          intro x hx he
          exact hk.1 (he ▸ List.mem_map_of_mem Prod.fst hx)
        have hnone := remaining_lookupLetter_none t found e.1 hkeys
        unfold lookupLetter remainingHintsData at hnone
        rw [hnone]
        rw [List.find?_cons_of_pos _ (by simp)]
        have hR : remainingCells found e.1 e.2 = [] := List.isEmpty_iff.mp hemp
        rw [hR] at hlem
        simp only [List.find?_nil, Option.map_none'] at hlem
        simp only [Option.none_bind, Option.map_some', Option.some_bind]
        exact hlem
      · rw [if_pos (by simp [hemp])]
        rw [List.find?_cons_of_pos _ (by simp)]
        rw [List.find?_cons_of_pos _ (by simp)]
        simp only [Option.map_some', Option.some_bind]
        exact hlem
    · by_cases hemp : (remainingCells found e.1 e.2).isEmpty
      · rw [if_neg (by simp [hemp])]
        rw [List.find?_cons_of_neg _ (by simp [hel])]
        exact ihr
      · rw [if_pos (by simp [hemp])]
        rw [List.find?_cons_of_neg _ (by simp [hel])]
        rw [List.find?_cons_of_neg _ (by simp [hel])]
        exact ihr

/-- With no found words every positive cell survives unchanged. -/
theorem remainingCells_no_found (l : Char) (cells : List (Nat × Nat))
    (hpos : ∀ c ∈ cells, 0 < c.2) : remainingCells [] l cells = cells := by
  induction cells with
  | nil => rfl
  | cons c t ih =>
    unfold remainingCells
    rw [List.filterMap_cons]
    dsimp only
    have h0 : countFound [] l c.1 = 0 := rfl
    rw [h0, Nat.sub_zero, if_pos (hpos c (List.mem_cons_self c t))]
    have hrest := ih fun x hx => hpos x (List.mem_cons_of_mem _ hx)
    unfold remainingCells at hrest
    rw [hrest]

/-- Round trip of remainingHintsData over an empty found set, for grids
whose counts are positive and whose letters all carry at least one
cell. -/
theorem remaining_round_trip (h : HintsData)
    (hpos : ∀ e ∈ h, ∀ c ∈ e.2, 0 < c.2) (hne : ∀ e ∈ h, e.2 ≠ []) :
    remainingHintsData h [] = h := by
  induction h with
  | nil => rfl
  | cons e t ih =>
    unfold remainingHintsData
    rw [List.map_cons, List.filter_cons]
    have hcells : remainingCells [] e.1 e.2 = e.2 :=
      remainingCells_no_found e.1 e.2 (hpos e (List.mem_cons_self e t))
    rw [hcells]
    rw [if_pos (by simp [hne e (List.mem_cons_self e t)])]
    have hrest := ih (fun x hx => hpos x (List.mem_cons_of_mem _ hx))
      (fun x hx => hne x (List.mem_cons_of_mem _ hx))
    unfold remainingHintsData at hrest
    rw [hrest]

/-- C2 amended: for every grid with duplicate-free letter and length keys
(as JavaScript objects guarantee), every (letter, length) lookup in
remainingGrid equals max(0, original − matching found count) with zero
results omitted; and the round trip remainingGrid(grid, {}) = grid holds
for grids with no zero cells in which every stored letter has at least
one cell (a letter with an empty cell map is dropped, see the
counterexample). -/
theorem C2_remaining_grid (hintsData : HintsData) (found : List (List Char))
    (hk : (hintsData.map Prod.fst).Nodup)
    (hcells : ∀ e ∈ hintsData, (e.2.map Prod.fst).Nodup) :
    (∀ l len, lookupCell (remainingHintsData hintsData found) l len =
      (lookupCell hintsData l len).bind (fun cnt =>
        if 0 < cnt - countFound found l len then some (cnt - countFound found l len)
        else none)) ∧
    ((∀ e ∈ hintsData, ∀ c ∈ e.2, 0 < c.2) → (∀ e ∈ hintsData, e.2 ≠ []) →
      remainingHintsData hintsData [] = hintsData) :=
  ⟨fun l len => remaining_grid_cell hintsData found l len hk hcells,
   fun hpos hne => remaining_round_trip hintsData hpos hne⟩

/-- C2 witness: the A-4 cell of a concrete grid loses exactly the found
word ABLE. -/
theorem C2_remaining_grid_witness :
    lookupCell (remainingHintsData [('A', [(4, 2), (5, 1)])] ["ABLE".data]) 'A' 4 =
      (lookupCell [('A', [(4, 2), (5, 1)])] 'A' 4).bind (fun cnt =>
        if 0 < cnt - countFound ["ABLE".data] 'A' 4 then
          some (cnt - countFound ["ABLE".data] 'A' 4)
        else none) :=
  (C2_remaining_grid [('A', [(4, 2), (5, 1)])] ["ABLE".data]
    (by decide) (by decide)).1 'A' 4

/-- C3 counterexample: the word ABCDEFGZ contains all seven allowed
letters A..G plus the disallowed Z, so isPangram is true while
isValidWord is false, refuting the claimed equivalence of isPangram with
validity plus letter coverage. -/
theorem C3_counterexample :
    isPangram ("ABCDEFG".data) ("ABCDEFGZ".data) = true ∧
    isValidWord ("ABCDEFG".data) ("ABCDEFGZ".data) = false := by
  refine ⟨by decide, by decide⟩

/-- C3 amended: isPangram is true exactly when the allowed set is
non-empty and every allowed letter occurs among the word's unique
letters; word validity plays no role. -/
theorem C3_pangram_characterization (allowed : List Char) (word : List Char) :
    isPangram allowed word = true ↔
      allowed ≠ [] ∧ ∀ c ∈ allowed, c ∈ uniqueLetters word := by
  unfold isPangram
  by_cases h : allowed.isEmpty
  · have : allowed = [] := List.isEmpty_iff.mp h
    simp [h, this]
  · rw [if_neg (by simpa using h)]
    have hne : allowed ≠ [] := by simpa [List.isEmpty_iff] using h
    simp only [hne, ne_eq, not_false_iff, true_and, decide_eq_true_eq]
    constructor
    · intro hlen c hc
      have hsub : List.Sublist (allowed.filter (fun c => (uniqueLetters word).contains c))
          allowed := List.filter_sublist allowed
      have heq : allowed.filter (fun c => (uniqueLetters word).contains c) = allowed :=
        hsub.eq_of_length hlen.symm
      have hall := List.filter_eq_self.mp heq
      simpa using hall c hc
    · intro hall
      have heq : allowed.filter (fun c => (uniqueLetters word).contains c) = allowed := by
        rw [List.filter_eq_self]
        intro a ha
        simpa using hall a ha
      rw [heq]

/-- C6 counterexample: the part_003 parseHintsFromContent accepts the
three-letter first line a b c as the allowed letters without any size
check, so a successful parse carries a partial allowed set of size 3. -/
theorem C6_counterexample :
    parseHintsFromContentP3 ("a b c\ne: 2 1 3".data) =
      some ⟨[('A', []), ('E', [(4, 2), (5, 1), (6, 3)])], 6, 0, ['A', 'B', 'C']⟩ ∧
    ¬ ((['A', 'B', 'C'] : List Char).length = 0 ∨
       (['A', 'B', 'C'] : List Char).length = 7) := by
  refine ⟨by decide, by decide⟩

/-- The allowed letters detected by parseHintsFromText number 0 or exactly
7: any other detection is discarded. -/
theorem uploadAllowed_length (lines : List (List Char)) :
    (uploadAllowed lines).length = 0 ∨ (uploadAllowed lines).length = 7 := by
  unfold uploadAllowed
  cases lines with
  | nil => left; rfl
  | cons f rest =>
    dsimp only
    split
    · split
      · split
        · right; assumption
        · left; rfl
      · split
        · right; assumption
        · left; rfl
    · left; rfl

/-- C6 amended (the part that holds): every successful result of
parseHintsFromText carries an allowedLetters component of size 0 or
exactly 7, never a partial set. -/
theorem C6_seven_or_empty (text : List Char) (r : ParsedFull)
    (h : parseHintsFromText text = some r) :
    r.allowedLetters.length = 0 ∨ r.allowedLetters.length = 7 := by
  unfold parseHintsFromText at h
  dsimp only at h
  split at h
  · exact absurd h (by simp)
  · injection h with h'
    subst h'
    exact uploadAllowed_length _

/-- C6 witness: a concrete successful parse whose allowed set has exactly
the 7 letters of the first line. -/
theorem C6_seven_or_empty_witness :
    (⟨[('D', [(4, 2), (5, 1)]), ('P', [(4, 3), (5, 2), (6, 1)])], 9, 0,
      ['D', 'E', 'L', 'M', 'N', 'P', 'U']⟩ : ParsedFull).allowedLetters.length = 0 ∨
    (⟨[('D', [(4, 2), (5, 1)]), ('P', [(4, 3), (5, 2), (6, 1)])], 9, 0,
      ['D', 'E', 'L', 'M', 'N', 'P', 'U']⟩ : ParsedFull).allowedLetters.length = 7 :=
  C6_seven_or_empty ("D E L M N P U\nd: 2 1 - 9\np: 3 2 1 8".data) _ (by decide)

/-- C7 counterexample: on input with AB: 3 and AB: 2 on two lines, the
part_004 parseTwoLetterList returns two separate AB entries instead of a
single accumulated one. -/
theorem C7_counterexample :
    parseTwoLetterListP4 ("AB: 3\nAB: 2".data) = [(('A', 'B'), 3), (('A', 'B'), 2)] ∧
    ¬ ((parseTwoLetterListP4 ("AB: 3\nAB: 2".data)).map Prod.fst).Nodup := by
  refine ⟨by decide, by decide⟩

/-- A combo appearing after an accumulation step was already present or is
the inserted one. -/
theorem mem_keys_insertCombo (l : List ((Char × Char) × Nat)) (c : Char × Char) (n : Nat)
    (x : Char × Char) (h : x ∈ (insertCombo l c n).map Prod.fst) :
    x ∈ l.map Prod.fst ∨ x = c := by
  induction l with
  | nil =>
    simp only [insertCombo, List.map_cons, List.map_nil, List.mem_singleton] at h
    exact Or.inr h
  | cons e t ih =>
    unfold insertCombo at h
    split at h
    · next he =>
      simp only [List.map_cons, List.mem_cons] at h ⊢
      tauto
    · simp only [List.map_cons, List.mem_cons] at h ⊢
      rcases h with h | h
      · exact Or.inl (Or.inl h)
      · rcases ih h with h' | h'
        · exact Or.inl (Or.inr h')
        · exact Or.inr h'

/-- Accumulation by insertCombo keeps the combo keys duplicate-free. -/
theorem insertCombo_nodup (l : List ((Char × Char) × Nat)) (c : Char × Char) (n : Nat)
    (h : (l.map Prod.fst).Nodup) : ((insertCombo l c n).map Prod.fst).Nodup := by
  induction l with
  | nil => simp [insertCombo]
  | cons e t ih =>
    unfold insertCombo
    split
    · simpa using h
    · next hne =>
      simp only [List.map_cons, List.nodup_cons] at h ⊢
      refine ⟨?_, ih h.2⟩
      intro hmem
      rcases mem_keys_insertCombo t c n e.1 hmem with h' | h'
      · exact h.1 h'
      · exact hne h'

/-- One line's worth of count-bearing matches keeps the keys
duplicate-free. -/
theorem foldl_insertCombo_nodup (ms : List ((Char × Char) × Nat))
    (acc : List ((Char × Char) × Nat)) (h : (acc.map Prod.fst).Nodup) :
    ((ms.foldl (fun a m => if 0 < m.2 then insertCombo a m.1 m.2 else a) acc).map
      Prod.fst).Nodup := by
  induction ms generalizing acc with
  | nil => exact h
  | cons m t ih =>
    rw [List.foldl_cons]
    by_cases hm : 0 < m.2
    · rw [if_pos hm]
      exact ih _ (insertCombo_nodup _ _ _ h)
    · rw [if_neg hm]
      exact ih _ h

/-- Sorted insertion permutes to consing. -/
theorem insertEntrySorted_perm (e : (Char × Char) × Nat)
    (l : List ((Char × Char) × Nat)) : (insertEntrySorted e l).Perm (e :: l) := by
  induction l with
  | nil => exact List.Perm.refl _
  | cons x xs ih =>
    unfold insertEntrySorted
    split
    · exact (ih.cons x).trans (List.Perm.swap e x xs)
    · exact List.Perm.refl _

/-- The stable sort of the two-letter entries is a permutation. -/
theorem sortEntries_perm (l : List ((Char × Char) × Nat)) : (sortEntries l).Perm l := by
  suffices h : ∀ acc, (l.foldl (fun a e => insertEntrySorted e a) acc).Perm (acc ++ l) by
    simpa using h []
  induction l with
  | nil => intro acc; simp [List.Perm.refl]
  | cons e t ih =>
    intro acc
    rw [List.foldl_cons]
    have s1 : (t.foldl (fun a e2 => insertEntrySorted e2 a)
        (insertEntrySorted e acc)).Perm (insertEntrySorted e acc ++ t) := ih _
    have s2 : (insertEntrySorted e acc ++ t).Perm ((e :: acc) ++ t) :=
      (insertEntrySorted_perm e acc).append_right t
    have s3 : ((e :: acc) ++ t).Perm (acc ++ e :: t) := List.perm_middle.symm
    exact (s1.trans s2).trans s3

/-- The combo keys of the accumulating parseTwoLetterList are always
duplicate-free. -/
theorem parseTwoLetterList_nodup (text : List Char) :
    ((parseTwoLetterList text).map Prod.fst).Nodup := by
  unfold parseTwoLetterList
  dsimp only
  have hres : ∀ (lines : List (List Char)) (acc : List ((Char × Char) × Nat)),
      (acc.map Prod.fst).Nodup →
      ((lines.foldl
        (fun acc2 line =>
          (scanTLLine line.length line).foldl
            (fun a m => if 0 < m.2 then insertCombo a m.1 m.2 else a) acc2) acc).map
        Prod.fst).Nodup := by
    intro lines
    induction lines with
    | nil => intro acc h; exact h
    | cons a t ih =>
      intro acc h
      rw [List.foldl_cons]
      exact ih _ (foldl_insertCombo_nodup _ _ h)
  have h1 := hres ((splitLines text).map trimJS) [] (by simp)
  exact ((sortEntries_perm _).map Prod.fst).nodup_iff.mpr h1

/-- C7 amended: the HintsImageUpload parseTwoLetterList keeps at most one
entry per combo for every input, and on the duplicated input AB: 3 and
AB: 2 it accumulates a single entry with count 5; the part_004 variant
violates this (see the counterexample). -/
theorem C7_accumulation :
    (∀ text : List Char, ((parseTwoLetterList text).map Prod.fst).Nodup) ∧
    parseTwoLetterList ("AB: 3\nAB: 2".data) = [(('A', 'B'), 5)] :=
  ⟨parseTwoLetterList_nodup, by decide⟩

/-- C9: for every word whose length is not 4, calculateWordPoints returns
the word's length plus 7 exactly when the pangram flag is set; in
particular short words score their own length with no minimum of 1. -/
theorem C9_non_four_scores_length (w : List Char) (p : Bool) (h : w.length ≠ 4) :
    calculateWordPoints w p = w.length + (if p then 7 else 0) := by
  unfold calculateWordPoints
  rw [if_neg h]
  cases p <;> simp

/-- C9 witness: a 3-letter non-pangram word scores exactly 3 points. -/
theorem C9_non_four_scores_length_witness :
    calculateWordPoints ("ABC".data) false = ("ABC".data).length + (if false then 7 else 0) :=
  C9_non_four_scores_length ("ABC".data) false (by decide)

/-- Membership in a set is preserved by adding a word. -/
theorem mem_addWord_of_mem (s : List (List Char)) (w x : List Char) (h : x ∈ s) :
    x ∈ addWord s w := by
  unfold addWord
  split
  · exact h
  · exact List.mem_append_left _ h

/-- The added word is a member of the extended set. -/
theorem self_mem_addWord (s : List (List Char)) (w : List Char) : w ∈ addWord s w := by
  unfold addWord
  split
  · next hc => simpa using hc
  · simp

/-- Folding addWord never removes members. -/
theorem mem_foldl_addWord_of_mem_init (l : List (List Char)) (s : List (List Char))
    (x : List Char) (h : x ∈ s) : x ∈ l.foldl addWord s := by
  induction l generalizing s with
  | nil => exact h
  | cons a t ih => exact ih _ (mem_addWord_of_mem _ _ _ h)

/-- Every folded-in word is a member of the result. -/
theorem mem_foldl_addWord_of_mem (l : List (List Char)) (s : List (List Char))
    (x : List Char) (h : x ∈ l) : x ∈ l.foldl addWord s := by
  induction l generalizing s with
  | nil => cases h
  | cons a t ih =>
    rcases List.mem_cons.mp h with rfl | h'
    · exact mem_foldl_addWord_of_mem_init t _ _ (self_mem_addWord s x)
    · exact ih _ h'

/-- Folding in only already-present words leaves the set unchanged. -/
theorem foldl_addWord_eq_of_subset (l : List (List Char)) (s : List (List Char))
    (h : ∀ w ∈ l, w ∈ s) : l.foldl addWord s = s := by
  induction l with
  | nil => rfl
  | cons a t ih =>
    have ha : addWord s a = s := by
      unfold addWord
      rw [if_pos (by simpa using h a (List.mem_cons_self a t))]
    rw [List.foldl_cons, ha]
    exact ih fun w hw => h w (List.mem_cons_of_mem _ hw)

/-- addWord keeps a set duplicate-free. -/
theorem addWord_nodup (s : List (List Char)) (w : List Char) (h : s.Nodup) :
    (addWord s w).Nodup := by
  unfold addWord
  split
  · exact h
  · next hc =>
    have hw : w ∉ s := by simpa using hc
    simp [List.nodup_append, h, hw]

/-- Folding addWord keeps a set duplicate-free. -/
theorem foldl_addWord_nodup (l : List (List Char)) (s : List (List Char))
    (h : s.Nodup) : (l.foldl addWord s).Nodup := by
  induction l generalizing s with
  | nil => exact h
  | cons a t ih => exact ih _ (addWord_nodup _ _ h)

/-- C8: handleWordsFound is idempotent — resubmitting the same batch of
words changes no set and no point total, and each set stays
duplicate-free. -/
theorem C8_idempotent (st : TrackerState) (ws : List (List Char)) :
    handleWordsFound (handleWordsFound st ws) ws = handleWordsFound st ws ∧
    calculateTotalPoints (handleWordsFound (handleWordsFound st ws) ws).foundWords
        (handleWordsFound (handleWordsFound st ws) ws).foundPangrams =
      calculateTotalPoints (handleWordsFound st ws).foundWords
        (handleWordsFound st ws).foundPangrams ∧
    (st.foundWords.Nodup → (handleWordsFound st ws).foundWords.Nodup) ∧
    (st.invalidWords.Nodup → (handleWordsFound st ws).invalidWords.Nodup) ∧
    (st.foundPangrams.Nodup → (handleWordsFound st ws).foundPangrams.Nodup) := by
  have hmain : handleWordsFound (handleWordsFound st ws) ws = handleWordsFound st ws := by
    cases st with
    | mk allowed fw iw fp =>
      unfold handleWordsFound
      dsimp only
      simp only [TrackerState.mk.injEq, true_and]
      refine ⟨?_, ?_, ?_⟩ <;>
        exact foldl_addWord_eq_of_subset _ _ fun w hw => mem_foldl_addWord_of_mem _ _ _ hw
  refine ⟨hmain, by rw [hmain], ?_, ?_, ?_⟩ <;> intro h
  · exact foldl_addWord_nodup _ _ h
  · exact foldl_addWord_nodup _ _ h
  · exact foldl_addWord_nodup _ _ h

/-- C8 witness: submitting ABLE twice to the empty tracker state leaves
the state of the first submission unchanged and duplicate-free. -/
theorem C8_idempotent_witness :
    handleWordsFound (handleWordsFound ⟨[], [], [], []⟩ ["ABLE".data]) ["ABLE".data] =
      handleWordsFound ⟨[], [], [], []⟩ ["ABLE".data] ∧
    (handleWordsFound ⟨[], [], [], []⟩ ["ABLE".data]).foundWords.Nodup :=
  ⟨(C8_idempotent ⟨[], [], [], []⟩ ["ABLE".data]).1,
   (C8_idempotent ⟨[], [], [], []⟩ ["ABLE".data]).2.2.1 (by decide)⟩

/-- C10: when totalPossibleWords is 0 the guard in progressPercentage
short-circuits the division and the result is 0, whatever the found-word
set is. -/
theorem C10_zero_total_progress (found : List (List Char)) (total : Nat)
    (h : total = 0) : progressPercentage found total = 0 := by
  subst h
  simp [progressPercentage]

/-- C10 witness: with three found words and no hints loaded the progress
is 0. -/
theorem C10_zero_total_progress_witness :
    progressPercentage ["ABLE".data, "BEAD".data, "DEAL".data] 0 = 0 :=
  C10_zero_total_progress ["ABLE".data, "BEAD".data, "DEAL".data] 0 rfl

end SpellingBee
